import Mathlib

/-! Map2Cat: catalogue generation from pixel maps.

A shallow embedding of `src/Map2Cat.hpp` (class `Map2Cat`, its constructor and
`Map2Cat::generate`) together with the properties of the generated catalogue.

Modelling conventions.

* A C++ `double` is a value of `Double`: a finite rational, one of the two
  infinities, or NaN.  Arithmetic on finite values is exact (rounding,
  overflow to infinity and the sign of zero are not modelled); the special
  values follow IEEE 754.
* `size_t` is a natural number below `2 ^ 64`.
* A thrown exception is an `Error`; an operation whose behaviour the language
  leaves undefined ends the run with `Error.undefined_behaviour`.  A run that ends
  with an `Error` has no file: what it had written before is not modelled, and
  neither is a failure to open the file.
* The Boost, HEALPix and `<random>` library functions the class calls are the
  fields of `Env`; the object's data members are the fields of `Map2Cat`, and
  `generate` passes the object explicitly (it returns the object it leaves
  behind together with the outcome).
-/

namespace Map2Cat

/-! ## Doubles -/

/-- Values of the C++ type `double`. -/
inductive Double where
  | finite (q : ℚ)
  | posInf
  | negInf
  | nan
  deriving DecidableEq

namespace Double

/-- Unary minus. -/
def neg : Double → Double
  | finite a => finite (-a)
  | posInf => negInf
  | negInf => posInf
  | nan => nan

/-- Binary `+`. -/
def add : Double → Double → Double
  | finite a, finite b => finite (a + b)
  | nan, _ => nan
  | _, nan => nan
  | posInf, negInf => nan
  | negInf, posInf => nan
  | posInf, _ => posInf
  | _, posInf => posInf
  | negInf, _ => negInf
  | _, negInf => negInf

/-- Binary `-`. -/
def sub (x y : Double) : Double := add x (neg y)

/-- The infinity with the sign of `s * t`, where a `true` flag means non-negative. -/
def signedInf (s t : Bool) : Double := if s = t then posInf else negInf

/-- Binary `*`. -/
def mul : Double → Double → Double
  | finite a, finite b => finite (a * b)
  | nan, _ => nan
  | _, nan => nan
  | finite a, posInf => if a = 0 then nan else signedInf (decide (0 ≤ a)) true
  | finite a, negInf => if a = 0 then nan else signedInf (decide (0 ≤ a)) false
  | posInf, finite b => if b = 0 then nan else signedInf true (decide (0 ≤ b))
  | negInf, finite b => if b = 0 then nan else signedInf false (decide (0 ≤ b))
  | posInf, posInf => posInf
  | posInf, negInf => negInf
  | negInf, posInf => negInf
  | negInf, negInf => posInf

/-- Binary `/`. -/
def div : Double → Double → Double
  | finite a, finite b =>
      if b = 0 then (if a = 0 then nan else signedInf (decide (0 ≤ a)) true)
      else finite (a / b)
  | nan, _ => nan
  | _, nan => nan
  | finite _, posInf => finite 0
  | finite _, negInf => finite 0
  | posInf, finite b => signedInf true (decide (0 ≤ b))
  | negInf, finite b => signedInf false (decide (0 ≤ b))
  | posInf, posInf => nan
  | posInf, negInf => nan
  | negInf, posInf => nan
  | negInf, negInf => nan

/-- The comparison `x >= y`; it is false as soon as one side is NaN. -/
def ge : Double → Double → Bool
  | finite a, finite b => decide (b ≤ a)
  | nan, _ => false
  | _, nan => false
  | posInf, _ => true
  | _, negInf => true
  | finite _, posInf => false
  | negInf, finite _ => false
  | negInf, posInf => false

/-- The comparison `x < y`; it is false as soon as one side is NaN. -/
def lt : Double → Double → Bool
  | finite a, finite b => decide (a < b)
  | nan, _ => false
  | _, nan => false
  | posInf, _ => false
  | _, negInf => false
  | finite _, posInf => true
  | negInf, finite _ => true
  | negInf, posInf => true

/-- The value is not NaN. -/
def isNumber : Double → Bool
  | nan => false
  | _ => true

/-- The value is neither infinite nor NaN. -/
def isFinite : Double → Bool
  | finite _ => true
  | _ => false

/-- The integer part of a rational: rounding toward zero. -/
def truncate (q : ℚ) : Int := Int.tdiv q.num q.den

/-- The cast `(size_t) x` of a double.  The conversion truncates, and its behaviour
is undefined (`none`) when the truncated value is not a value of `size_t`. -/
def toSizeT : Double → Option Nat
  | finite q =>
      if 0 ≤ truncate q ∧ truncate q < 2 ^ 64 then some (truncate q).toNat else none
  | _ => none

end Double

instance : Neg Double := ⟨Double.neg⟩
instance : Add Double := ⟨Double.add⟩
instance : Sub Double := ⟨Double.sub⟩
instance : Mul Double := ⟨Double.mul⟩
instance : Div Double := ⟨Double.div⟩

/-- The rational value of the double nearest to π, `0x1.921fb54442d18p+1`. -/
def piValue : ℚ := 884279719003555 / 281474976710656

/-- The constant `M_PI` of `<cmath>`. -/
def M_PI : Double := .finite piValue

/-- Source: `static const constexpr double deg2rad = M_PI/double(180);` -/
def deg2rad : Double := M_PI / .finite 180

/-- Source: `static const constexpr double rotPhi = double(0);` -/
def rotPhi : Double := .finite 0

end Map2Cat

namespace Map2Cat

/-! ## Library types used by the class -/

/-- Exceptions `generate` and the constructor can end with, and undefined behaviour. -/
inductive Error where
  /-- Thrown by `read_ini`: `boost::property_tree::ini_parser_error`. -/
  | ini_parser_error
  /-- Thrown by `read_Healpix_map_from_fits`. -/
  | PlanckError
  /-- Thrown by `ptree::get` when the path has no node. -/
  | ptree_bad_path (path : String)
  /-- Thrown by `ptree::get` when the data of the node does not translate. -/
  | ptree_bad_data (path : String)
  /-- Thrown by `boost::lexical_cast`. -/
  | bad_lexical_cast
  /-- Thrown by `generate` itself: `std::runtime_error(msg)`. -/
  | runtime_error (msg : String)
  /-- The run has reached an operation with undefined behaviour. -/
  | undefined_behaviour
  deriving DecidableEq

deriving instance DecidableEq for Except

/-- The property tree read from an ini file: the data of the node at `section.key`,
in file order. -/
abbrev propertyTreeType := List (String × String)

/-- `Healpix_Ordering_Scheme` of `healpix_base.h`. -/
inductive Healpix_Ordering_Scheme where
  | RING
  | NEST
  deriving DecidableEq

/-- `Healpix_Map<double>`: the ordering scheme and the pixel array; `Npix()` is the
length of the array. -/
structure mapType where
  scheme : Healpix_Ordering_Scheme
  map : List Double
  deriving DecidableEq

/-- Source: `mMapN.Npix()`. -/
def mapType.Npix (m : mapType) : Nat := m.map.length

/-- `pointing` of `pointing.h`: colatitude and longitude in radians. -/
structure pointing where
  theta : Double
  phi : Double
  deriving DecidableEq

/-- The library functions the class calls.  `G` is the state of the random stream:
the engine `std::mt19937 gen` together with the distribution objects that draw
from it. -/
structure Env (G : Type) where
  /-- `boost::property_tree::ini_parser::read_ini`. -/
  read_ini : String → Option propertyTreeType
  /-- `read_Healpix_map_from_fits(fileName, map, colnum, hdunum)`. -/
  read_Healpix_map_from_fits : String → Nat → Nat → Option mapType
  /-- `boost::lexical_cast<double>`; `none` when it throws. -/
  lexical_cast : String → Option Double
  /-- The translator behind `ptree::get<size_t>`. -/
  translate_size_t : String → Option Nat
  /-- The translator behind `ptree::get<double>`. -/
  translate_double : String → Option Double
  /-- `Healpix_Base::pix2ang` for a scheme, a number of pixels and a pixel. -/
  pix2ang : Healpix_Ordering_Scheme → Nat → Nat → pointing
  /-- `std::mt19937 gen(randomSeed)` with freshly constructed distributions. -/
  mt19937 : Nat → G
  /-- One call `dist_z(gen)` of `std::uniform_real_distribution<double> dist_z(a, b)`. -/
  dist_z : Double → Double → G → Double × G
  /-- One call `dist_e(gen)` of `std::normal_distribution<> dist_e(0,1)`. -/
  dist_e : G → Double × G

/-- One line of the output file. -/
inductive Line where
  /-- A line of text. -/
  | text (s : String)
  /-- Five doubles printed with `std::setprecision(10)`, separated by `delimiter`. -/
  | row (delimiter : String) (ra dec zVal e1Val e2Val : Double)
  deriving DecidableEq

/-- The file `inputCatFile` after `close()`: its name and its lines. -/
structure ofstream where
  fileName : String
  lines : List Line
  deriving DecidableEq

/-- `boost::tokenizer` with `boost::char_separator<char> sep(",")`: the comma is
dropped and empty tokens are dropped.  `cur` is the token being read. -/
def splitTokens (cur : List Char) : List Char → List (List Char)
  | [] => if cur = [] then [] else [cur]
  | c :: cs =>
      if c = ',' then (if cur = [] then splitTokens [] cs else cur :: splitTokens [] cs)
      else splitTokens (cur ++ [c]) cs

/-- Source: `tokenizer tokens(zBoundsStr, sep);` -/
def tokenizer (zBoundsStr : String) : List String :=
  (splitTokens [] zBoundsStr.toList).map String.mk

/-- Source: `mPropTree.get<std::string>(path)`. -/
def get_string (t : propertyTreeType) (path : String) : Except Error String :=
  match t.lookup path with
  | none => .error (.ptree_bad_path path)
  | some v => .ok v

/-- Source: `mPropTree.get<size_t>(path)`. -/
def get_size_t {G : Type} (env : Env G) (t : propertyTreeType) (path : String) :
    Except Error Nat :=
  match t.lookup path with
  | none => .error (.ptree_bad_path path)
  | some v =>
      match env.translate_size_t v with
      | none => .error (.ptree_bad_data path)
      | some n => .ok n

/-- Source: `mPropTree.get<double>(path)`. -/
def get_double {G : Type} (env : Env G) (t : propertyTreeType) (path : String) :
    Except Error Double :=
  match t.lookup path with
  | none => .error (.ptree_bad_path path)
  | some v =>
      match env.translate_double v with
      | none => .error (.ptree_bad_data path)
      | some d => .ok d

end Map2Cat

/-- The data members of an object of class `Map2Cat`. -/
structure Map2Cat where
  mPropTree : Map2Cat.propertyTreeType
  mMapN : Map2Cat.mapType
  mMapE1 : Map2Cat.mapType
  mMapE2 : Map2Cat.mapType
  mZBounds : List Map2Cat.Double
  deriving DecidableEq

namespace Map2Cat

/-- The constructor `Map2Cat(iniFileName)`. -/
def new {G : Type} (env : Env G) (iniFileName : String) : Except Error Map2Cat :=
  match env.read_ini iniFileName with
  | none => .error .ini_parser_error
  | some mPropTree =>
      match get_string mPropTree "input.data_map_file_name" with
      | .error e => .error e
      | .ok inputMapFileName =>
          match env.read_Healpix_map_from_fits inputMapFileName 1 2,
                env.read_Healpix_map_from_fits inputMapFileName 2 2,
                env.read_Healpix_map_from_fits inputMapFileName 3 2 with
          | some mMapN, some mMapE1, some mMapE2 =>
              .ok { mPropTree := mPropTree, mMapN := mMapN, mMapE1 := mMapE1,
                    mMapE2 := mMapE2, mZBounds := [] }
          | _, _, _ => .error .PlanckError

/-- The loop `for(tokIter ...) mZBounds.push_back(lexical_cast<double>(*tokIter))`:
the vector after the loop, and whether the loop ended without `bad_lexical_cast`. -/
def pushTokens (lexical_cast : String → Option Double) :
    List String → List Double → Bool × List Double
  | [], mZBounds => (true, mZBounds)
  | tok :: toks, mZBounds =>
      match lexical_cast tok with
      | none => (false, mZBounds)
      | some d => pushTokens lexical_cast toks (mZBounds ++ [d])

/-- Declination of a pixel. Source: `-( theta - M_PI*double(0.5) )/deg2rad`. -/
def decOf (pntg : pointing) : Double :=
  (-(pntg.theta - M_PI * .finite (1 / 2))) / deg2rad

/-- Right ascension of a pixel. Source: `phi/deg2rad + rotPhi`. -/
def raOf (pntg : pointing) : Double :=
  pntg.phi / deg2rad + rotPhi

/-- The inner loop `for(size_t j=0;j<numGals;++j)`: the rows written and the random
stream after them.  The first argument is the number of iterations left. -/
def galaxyLoop {G : Type} (env : Env G) (z0 z1 sigma_e : Double) (delimiter : String)
    (e1 e2 ra dec : Double) : Nat → G → List Line × G
  | 0, gen => ([], gen)
  | n + 1, gen =>
      let zd := env.dist_z z0 z1 gen
      let n1 := env.dist_e zd.2
      let n2 := env.dist_e n1.2
      let rest := galaxyLoop env z0 z1 sigma_e delimiter e1 e2 ra dec n n2.2
      (Line.row delimiter ra dec zd.1 (e1 + n1.1 * sigma_e) (e2 + n2.1 * sigma_e) :: rest.1,
        rest.2)

/-- One iteration of the outer loop, for pixel `i`: the rows it writes and the random
stream it leaves.  Indexing a map outside its array and a cast to `size_t` without a
value are undefined behaviour. -/
def pixelBody {G : Type} (env : Env G) (self : Map2Cat) (z0 z1 sigma_e : Double)
    (delimiter : String) (i : Nat) (gen : G) : Except Error (List Line × G) :=
  match self.mMapN.map[i]?, self.mMapE1.map[i]?, self.mMapE2.map[i]? with
  | some n, some e1, some e2 =>
      match n.toSizeT with
      | none => .error .undefined_behaviour
      | some numGals =>
          let pntg := env.pix2ang self.mMapN.scheme self.mMapN.Npix i
          .ok (galaxyLoop env z0 z1 sigma_e delimiter e1 e2 (raOf pntg) (decOf pntg)
            numGals gen)
  | _, _, _ => .error .undefined_behaviour

/-- The outer loop `for(size_t i=0;i<numPix;++i)` from pixel `i` on, with `left`
iterations left. -/
def pixelLoop {G : Type} (env : Env G) (self : Map2Cat) (z0 z1 sigma_e : Double)
    (delimiter : String) : (left : Nat) → (i : Nat) → G → Except Error (List Line × G)
  | 0, _, gen => .ok ([], gen)
  | left + 1, i, gen =>
      match pixelBody env self z0 z1 sigma_e delimiter i gen with
      | .error e => .error e
      | .ok rows =>
          match pixelLoop env self z0 z1 sigma_e delimiter left (i + 1) rows.2 with
          | .error e => .error e
          | .ok rest => .ok (rows.1 ++ rest.1, rest.2)

/-- The redshift printed on a line, when the line is a row. -/
def Line.zVal : Line → Option Double
  | .text _ => none
  | .row _ _ _ zVal _ _ => some zVal

/-- The first line of the file. -/
def headerLine (delimiter : String) : Line :=
  .text ("#" ++ "ra" ++ delimiter ++ "dec" ++ delimiter ++ "z" ++ delimiter ++ "e1"
    ++ delimiter ++ "e2")

/-- The body of `generate` from the size check of `mZBounds` on; it does not change
the object.  The result is the file written together with the local random stream
`gen` as the loops leave it. -/
def generateFrom {G : Type} (env : Env G) (self : Map2Cat) : Except Error (ofstream × G) :=
  match self.mZBounds with
  | [z0, z1] =>
      if z0.ge z1 then
        .error (.runtime_error "The upper bound should be greater than the lower bound.")
      else do
        let numPix := self.mMapN.Npix
        let randomSeed ← get_size_t env self.mPropTree "input.rand_seed"
        let gen := env.mt19937 randomSeed
        let sigma_e ← get_double env self.mPropTree "input.sigma_e"
        let inputCatFileName ← get_string self.mPropTree "output.catlogue_file_name"
        let delimiter ← get_string self.mPropTree "output.delimiter"
        let rows ← pixelLoop env self z0 z1 sigma_e delimiter numPix 0 gen
        pure ({ fileName := inputCatFileName, lines := headerLine delimiter :: rows.1 },
          rows.2)
  | _ =>
      .error (.runtime_error "The z-bounds should consist of two values. No more, no less.")

/-- Source: `void generate()`.  The outcome (the file written, or the exception) and
the object after the call. -/
def generate {G : Type} (env : Env G) (self : Map2Cat) : Except Error ofstream × Map2Cat :=
  match get_string self.mPropTree "input.z_bounds" with
  | .error e => (.error e, self)
  | .ok zBoundsStr =>
      let pushed := pushTokens env.lexical_cast (tokenizer zBoundsStr) self.mZBounds
      let self1 := { self with mZBounds := pushed.2 }
      if pushed.1 then ((generateFrom env self1).map Prod.fst, self1)
      else (.error .bad_lexical_cast, self1)

end Map2Cat

namespace Map2Cat

/-! ## A sample environment

A small environment on which the model runs: decimal numerals for the three string
conversions, a counter for the random stream, and maps held in memory. -/

/-- The value of a nonempty string of decimal digits read after `acc`. -/
def readDigits : List Char → Nat → Option Nat
  | [], acc => some acc
  | c :: cs, acc =>
      if '0' ≤ c ∧ c ≤ '9' then readDigits cs (10 * acc + (c.toNat - 48)) else none

/-- Decimal numerals `digits`. -/
def sampleNat (s : String) : Option Nat :=
  if s.toList = [] then none else readDigits s.toList 0

/-- Unsigned decimal numerals `digits` and `digits.digits`. -/
def sampleUnsigned (cs : List Char) : Option ℚ :=
  let ip := cs.takeWhile (fun c => c ≠ '.')
  let fp := (cs.dropWhile (fun c => c ≠ '.')).drop 1
  if ip = [] then none
  else if fp = [] then
    (if cs = ip then (readDigits ip 0).map (fun n => (n : ℚ)) else none)
  else
    match readDigits ip 0, readDigits fp 0 with
    | some a, some b => some ((a : ℚ) + (b : ℚ) / (10 : ℚ) ^ fp.length)
    | _, _ => none

/-- Decimal numerals with an optional minus sign. -/
def sampleDouble (s : String) : Option Double :=
  match s.toList with
  | '-' :: cs => (sampleUnsigned cs).map (fun q => .finite (-q))
  | cs => (sampleUnsigned cs).map .finite

/-- The sample `lexical_cast<double>`: decimal numerals, and the words `nan`, `inf`
and `-inf`, which `boost::lexical_cast<double>` reads as NaN and the infinities. -/
def sampleLexicalCast (s : String) : Option Double :=
  if s = "nan" then some .nan
  else if s = "inf" then some .posInf
  else if s = "-inf" then some .negInf
  else sampleDouble s

/-- Three maps of three pixels: counts `2`, `0.5` and `1`. -/
def sampleMaps (colnum : Nat) : Option mapType :=
  match colnum with
  | 1 => some ⟨.RING, [.finite 2, .finite (1 / 2), .finite 1]⟩
  | 2 => some ⟨.RING, [.finite (1 / 10), .finite (1 / 5), .finite (3 / 10)]⟩
  | 3 => some ⟨.RING, [.finite (-1 / 5), .finite 0, .finite (2 / 5)]⟩
  | _ => none

/-- The uniform draw of the sample stream: `a + (b - a) * u` with `u = (g mod 4) / 4`,
a value of the unit interval scaled to the bounds as the standard libraries do. -/
def sampleUniform (a b : Double) (g : Nat) : Double × Nat :=
  (a + (b - a) * .finite (((g % 4 : Nat) : ℚ) / 4), g + 1)

/-- The normal draw of the sample stream: `(g mod 5) - 2`. -/
def sampleNormal (g : Nat) : Double × Nat :=
  (.finite (((g % 5 : Nat) : ℚ) - 2), g + 1)

/-- The sample ini file. -/
def sampleTree : propertyTreeType :=
  [("input.data_map_file_name", "maps.fits"), ("input.z_bounds", "0.5,0.6"),
   ("input.rand_seed", "7"), ("input.sigma_e", "0.25"),
   ("output.catlogue_file_name", "cat.txt"), ("output.delimiter", ";")]

/-- The sample environment. -/
def sampleEnv : Env Nat where
  read_ini := fun name => if name = "sample.ini" then some sampleTree else none
  read_Healpix_map_from_fits := fun name colnum hdunum =>
    if name = "maps.fits" ∧ hdunum = 2 then sampleMaps colnum else none
  lexical_cast := sampleLexicalCast
  translate_size_t := sampleNat
  translate_double := sampleDouble
  pix2ang := fun _ _ i => ⟨.finite ((i : ℚ) + 1), .finite (2 * (i : ℚ))⟩
  mt19937 := fun seed => seed
  dist_z := sampleUniform
  dist_e := sampleNormal

/-- The object the constructor builds from the sample ini file. -/
def sampleObject : Map2Cat :=
  { mPropTree := sampleTree
    mMapN := ⟨.RING, [.finite 2, .finite (1 / 2), .finite 1]⟩
    mMapE1 := ⟨.RING, [.finite (1 / 10), .finite (1 / 5), .finite (3 / 10)]⟩
    mMapE2 := ⟨.RING, [.finite (-1 / 5), .finite 0, .finite (2 / 5)]⟩
    mZBounds := [] }

end Map2Cat

namespace Map2Cat

/-! ## Notions used to state the properties -/

/-- The values `generate` reads from the property tree. -/
structure GenerationConfig where
  zBoundsStr : String
  zMin : Double
  zMax : Double
  randomSeed : Nat
  sigmaE : Double
  outputPath : String
  delimiter : String

/-- The inputs on which `generate` runs to the end on a freshly constructed object:
every key the code looks up is present and translates, the bounds string has two
tokens that `lexical_cast` accepts and the comparison `>=` of the two is false, the
three maps have one length, and every count-map value has a cast to `size_t`, the
casts being `counts`. -/
structure ValidRun {G : Type} (env : Env G) (obj : Map2Cat) (c : GenerationConfig)
    (counts : List Nat) : Prop where
  fresh : obj.mZBounds = []
  bounds_key : get_string obj.mPropTree "input.z_bounds" = .ok c.zBoundsStr
  bounds_tokens : (tokenizer c.zBoundsStr).map env.lexical_cast = [some c.zMin, some c.zMax]
  bounds_ordered : c.zMin.ge c.zMax = false
  seed_key : get_size_t env obj.mPropTree "input.rand_seed" = .ok c.randomSeed
  sigma_key : get_double env obj.mPropTree "input.sigma_e" = .ok c.sigmaE
  file_key : get_string obj.mPropTree "output.catlogue_file_name" = .ok c.outputPath
  delimiter_key : get_string obj.mPropTree "output.delimiter" = .ok c.delimiter
  npix_e1 : obj.mMapE1.Npix = obj.mMapN.Npix
  npix_e2 : obj.mMapE2.Npix = obj.mMapN.Npix
  counts_defined : obj.mMapN.map.map Double.toSizeT = counts.map some

/-- The random stream after the three draws of one galaxy: `dist_z`, `dist_e`,
`dist_e`. -/
def threeDraws {G : Type} (env : Env G) (z0 z1 : Double) (gen : G) : G :=
  (env.dist_e (env.dist_e (env.dist_z z0 z1 gen).2).2).2

/-- The random stream of a run after the draws of `r` galaxies. -/
def genAfter {G : Type} (env : Env G) (c : GenerationConfig) (r : Nat) : G :=
  (threeDraws env c.zMin c.zMax)^[r] (env.mt19937 c.randomSeed)

/-- The number of galaxies of the pixels below `p`. -/
def rowsBefore (counts : List Nat) (p : Nat) : Nat := (counts.take p).sum

/-- The row written for a galaxy of a pixel with shape values `e1`, `e2` and direction
`pntg` when the random stream is `gen`. -/
def galaxyRow {G : Type} (env : Env G) (z0 z1 sigma_e : Double) (delimiter : String)
    (e1 e2 : Double) (pntg : pointing) (gen : G) : Line :=
  .row delimiter (raOf pntg) (decOf pntg) (env.dist_z z0 z1 gen).1
    (e1 + (env.dist_e (env.dist_z z0 z1 gen).2).1 * sigma_e)
    (e2 + (env.dist_e (env.dist_e (env.dist_z z0 z1 gen).2).2).1 * sigma_e)

/-- The contract of `std::normal_distribution<>`: a draw is a finite value. -/
def NormalContract {G : Type} (env : Env G) : Prop :=
  ∀ gen : G, (env.dist_e gen).1.isFinite = true

/-- The values the sample run reads from the sample tree. -/
def sampleConfig : GenerationConfig :=
  { zBoundsStr := "0.5,0.6", zMin := .finite (1 / 2), zMax := .finite (3 / 5),
    randomSeed := 7, sigmaE := .finite (1 / 4), outputPath := "cat.txt", delimiter := ";" }

/-- The sample object with another property tree. -/
def sampleObjectWith (t : propertyTreeType) : Map2Cat :=
  { sampleObject with mPropTree := t }

/-- The sample tree with another bounds string. -/
def sampleTreeWithBounds (zBoundsStr : String) : propertyTreeType :=
  [("input.data_map_file_name", "maps.fits"), ("input.z_bounds", zBoundsStr),
   ("input.rand_seed", "7"), ("input.sigma_e", "0.25"),
   ("output.catlogue_file_name", "cat.txt"), ("output.delimiter", ";")]

/-- A property tree holding the six keys `input.data_map_file_name`, `input.z_bounds`,
`input.rand_seed`, `input.sigma_e`, `output.catalogue_file_name` and
`output.delimiter`. -/
def catalogueKeyTree : propertyTreeType :=
  [("input.data_map_file_name", "maps.fits"), ("input.z_bounds", "0.5,0.6"),
   ("input.rand_seed", "7"), ("input.sigma_e", "0.25"),
   ("output.catalogue_file_name", "cat.txt"), ("output.delimiter", ";")]

/-- The sample object with the count `-1` at pixel `1`. -/
def negativeCountObject : Map2Cat :=
  { sampleObject with mMapN := ⟨.RING, [.finite 2, .finite (-1), .finite 1]⟩ }

/-- The sample run with `sigma_e` equal to zero. -/
def noNoiseConfig : GenerationConfig :=
  { sampleConfig with sigmaE := .finite 0 }

/-- The sample tree with `sigma_e` equal to zero. -/
def noNoiseTree : propertyTreeType :=
  [("input.data_map_file_name", "maps.fits"), ("input.z_bounds", "0.5,0.6"),
   ("input.rand_seed", "7"), ("input.sigma_e", "0"),
   ("output.catlogue_file_name", "cat.txt"), ("output.delimiter", ";")]

/-! ## The loops -/

section Loops

variable {G : Type} (env : Env G)

theorem galaxyLoop_snd (z0 z1 sigma_e : Double) (delimiter : String) (e1 e2 ra dec : Double)
    (n : Nat) (gen : G) :
    (galaxyLoop env z0 z1 sigma_e delimiter e1 e2 ra dec n gen).2
      = (threeDraws env z0 z1)^[n] gen := by
  induction n generalizing gen with
  | zero => rfl
  | succ n ih =>
      simp only [galaxyLoop, Function.iterate_succ, Function.comp_apply]
      rw [ih]
      rfl

theorem galaxyLoop_length (z0 z1 sigma_e : Double) (delimiter : String)
    (e1 e2 ra dec : Double) (n : Nat) (gen : G) :
    (galaxyLoop env z0 z1 sigma_e delimiter e1 e2 ra dec n gen).1.length = n := by
  induction n generalizing gen with
  | zero => rfl
  | succ n ih => simp [galaxyLoop, ih]

theorem galaxyLoop_getElem? (z0 z1 sigma_e : Double) (delimiter : String)
    (e1 e2 : Double) (pntg : pointing) (n j : Nat) (hj : j < n) (gen : G) :
    (galaxyLoop env z0 z1 sigma_e delimiter e1 e2 (raOf pntg) (decOf pntg) n gen).1[j]?
      = some (galaxyRow env z0 z1 sigma_e delimiter e1 e2 pntg
          ((threeDraws env z0 z1)^[j] gen)) := by
  induction n generalizing gen j with
  | zero => omega
  | succ n ih =>
      cases j with
      | zero => simp [galaxyLoop, galaxyRow]
      | succ j =>
          simp only [galaxyLoop, List.getElem?_cons_succ, Function.iterate_succ,
            Function.comp_apply]
          rw [ih j (by omega)]
          rfl

end Loops

theorem rowsBefore_succ (counts : List Nat) (p c : Nat) (h : counts[p]? = some c) :
    rowsBefore counts (p + 1) = rowsBefore counts p + c := by
  simp [rowsBefore, List.take_succ, h]

theorem rowsBefore_mono (counts : List Nat) (a b : Nat) (h : a ≤ b) :
    rowsBefore counts a ≤ rowsBefore counts b := by
  induction b with
  | zero =>
      have : a = 0 := by omega
      subst this
      exact le_refl _
  | succ b ih =>
      rcases Nat.lt_or_ge a (b + 1) with h1 | h1
      · have hb := ih (by omega)
        cases hc : counts[b]? with
        | none =>
            have : rowsBefore counts (b + 1) = rowsBefore counts b := by
              simp [rowsBefore, List.take_succ, hc]
            omega
        | some c =>
            rw [rowsBefore_succ counts b c hc]
            omega
      · have : a = b + 1 := by omega
        subst this
        exact le_refl _

theorem rowsBefore_length (counts : List Nat) :
    rowsBefore counts counts.length = counts.sum := by
  simp [rowsBefore]

section Loops

variable {G : Type} (env : Env G)

theorem counts_length (self : Map2Cat) (counts : List Nat)
    (hN : self.mMapN.map.map Double.toSizeT = counts.map some) :
    counts.length = self.mMapN.Npix := by
  have := congrArg List.length hN
  simpa [mapType.Npix] using this.symm

theorem counts_getElem? (self : Map2Cat) (counts : List Nat)
    (hN : self.mMapN.map.map Double.toSizeT = counts.map some) (i : Nat)
    (hi : i < self.mMapN.Npix) :
    ∃ n c, self.mMapN.map[i]? = some n ∧ n.toSizeT = some c ∧ counts[i]? = some c := by
  have hlen := counts_length self counts hN
  have hi1 : i < self.mMapN.map.length := hi
  have hi2 : i < counts.length := by omega
  refine ⟨self.mMapN.map[i], counts[i], List.getElem?_eq_getElem hi1, ?_,
    List.getElem?_eq_getElem hi2⟩
  have := congrArg (fun l => l[i]?) hN
  simpa [List.getElem?_map, List.getElem?_eq_getElem hi1, List.getElem?_eq_getElem hi2]
    using this

theorem pixelBody_ok (self : Map2Cat) (z0 z1 sigma_e : Double) (delimiter : String)
    (i : Nat) (gen : G) (n e1 e2 : Double) (c : Nat)
    (hn : self.mMapN.map[i]? = some n) (hc : n.toSizeT = some c)
    (h1 : self.mMapE1.map[i]? = some e1) (h2 : self.mMapE2.map[i]? = some e2) :
    pixelBody env self z0 z1 sigma_e delimiter i gen
      = .ok (galaxyLoop env z0 z1 sigma_e delimiter e1 e2
          (raOf (env.pix2ang self.mMapN.scheme self.mMapN.Npix i))
          (decOf (env.pix2ang self.mMapN.scheme self.mMapN.Npix i)) c gen) := by
  simp [pixelBody, hn, hc, h1, h2]

theorem pixelLoop_spec (self : Map2Cat) (z0 z1 sigma_e : Double) (delimiter : String)
    (counts : List Nat) (gen : G)
    (hN : self.mMapN.map.map Double.toSizeT = counts.map some)
    (hE1 : self.mMapE1.Npix = self.mMapN.Npix) (hE2 : self.mMapE2.Npix = self.mMapN.Npix)
    (left i : Nat) (hi : i + left = self.mMapN.Npix) :
    ∃ rows, pixelLoop env self z0 z1 sigma_e delimiter left i
          ((threeDraws env z0 z1)^[rowsBefore counts i] gen)
        = .ok (rows, (threeDraws env z0 z1)^[rowsBefore counts (i + left)] gen) ∧
      rowsBefore counts i + rows.length = rowsBefore counts (i + left) ∧
      ∀ p j e1 e2 cp, i ≤ p → counts[p]? = some cp → j < cp →
        self.mMapE1.map[p]? = some e1 → self.mMapE2.map[p]? = some e2 →
        rows[rowsBefore counts p + j - rowsBefore counts i]?
          = some (galaxyRow env z0 z1 sigma_e delimiter e1 e2
              (env.pix2ang self.mMapN.scheme self.mMapN.Npix p)
              ((threeDraws env z0 z1)^[rowsBefore counts p + j] gen)) := by
  have hlen := counts_length self counts hN
  induction left generalizing i with
  | zero =>
      refine ⟨[], rfl, by simp, ?_⟩
      intro p j e1 e2 cp hp hcp
      have : p < counts.length := by
        by_contra hlt
        rw [List.getElem?_eq_none (by omega)] at hcp
        cases hcp
      omega
  | succ left ih =>
      have hiN : i < self.mMapN.Npix := by omega
      obtain ⟨n, c, hn, hc, hci⟩ := counts_getElem? self counts hN i hiN
      have hi1 : i < self.mMapE1.map.length := by
        have : self.mMapE1.map.length = self.mMapN.Npix := hE1
        omega
      have hi2 : i < self.mMapE2.map.length := by
        have : self.mMapE2.map.length = self.mMapN.Npix := hE2
        omega
      have hb := pixelBody_ok env self z0 z1 sigma_e delimiter i
        ((threeDraws env z0 z1)^[rowsBefore counts i] gen) n _ _ c hn hc
        (List.getElem?_eq_getElem hi1) (List.getElem?_eq_getElem hi2)
      have hsucc := rowsBefore_succ counts i c hci
      obtain ⟨rest, hrest, hrlen, hrget⟩ := ih (i + 1) (by omega)
      have hstate : (galaxyLoop env z0 z1 sigma_e delimiter self.mMapE1.map[i]
          self.mMapE2.map[i] (raOf (env.pix2ang self.mMapN.scheme self.mMapN.Npix i))
          (decOf (env.pix2ang self.mMapN.scheme self.mMapN.Npix i)) c
          ((threeDraws env z0 z1)^[rowsBefore counts i] gen)).2
          = (threeDraws env z0 z1)^[rowsBefore counts (i + 1)] gen := by
        rw [galaxyLoop_snd, hsucc, Nat.add_comm, Function.iterate_add_apply]
      refine ⟨(galaxyLoop env z0 z1 sigma_e delimiter self.mMapE1.map[i]
          self.mMapE2.map[i] (raOf (env.pix2ang self.mMapN.scheme self.mMapN.Npix i))
          (decOf (env.pix2ang self.mMapN.scheme self.mMapN.Npix i)) c
          ((threeDraws env z0 z1)^[rowsBefore counts i] gen)).1 ++ rest, ?_, ?_, ?_⟩
      · simp only [pixelLoop, hb, hstate, hrest]
        rw [show i + (left + 1) = i + 1 + left by omega]
      · rw [List.length_append, galaxyLoop_length]
        rw [show i + (left + 1) = i + 1 + left by omega]
        omega
      · intro p j e1 e2 cp hp hcp hj h1 h2
        rcases Nat.eq_or_lt_of_le hp with hpi | hpi
        · subst hpi
          rw [hci] at hcp
          cases hcp
          rw [List.getElem?_eq_getElem hi1] at h1
          rw [List.getElem?_eq_getElem hi2] at h2
          cases h1
          cases h2
          rw [show rowsBefore counts i + j - rowsBefore counts i = j by omega]
          rw [List.getElem?_append_left (by rw [galaxyLoop_length]; exact hj)]
          rw [galaxyLoop_getElem? env _ _ _ _ _ _ _ _ _ hj]
          rw [Nat.add_comm, Function.iterate_add_apply]
        · have hmono := rowsBefore_mono counts (i + 1) p (by omega)
          rw [List.getElem?_append_right (by rw [galaxyLoop_length]; omega)]
          rw [galaxyLoop_length]
          rw [show rowsBefore counts p + j - rowsBefore counts i - c
            = rowsBefore counts p + j - rowsBefore counts (i + 1) by omega]
          exact hrget p j e1 e2 cp (by omega) hcp hj h1 h2

end Loops

/-! ## The run as a whole -/

section Run

variable {G : Type} (env : Env G)

theorem pushTokens_ok (lexical_cast : String → Option Double) (toks : List String)
    (ds mZBounds : List Double) (h : toks.map lexical_cast = ds.map some) :
    pushTokens lexical_cast toks mZBounds = (true, mZBounds ++ ds) := by
  induction toks generalizing ds mZBounds with
  | nil =>
      cases ds with
      | nil => simp [pushTokens]
      | cons d ds => simp at h
  | cons tok toks ih =>
      cases ds with
      | nil => simp at h
      | cons d ds =>
          simp only [List.map_cons, List.cons.injEq] at h
          simp only [pushTokens, h.1]
          rw [ih ds (mZBounds ++ [d]) h.2]
          simp

theorem generate_of_tokens (self : Map2Cat) (zBoundsStr : String) (ds : List Double)
    (hfresh : self.mZBounds = [])
    (hkey : get_string self.mPropTree "input.z_bounds" = .ok zBoundsStr)
    (htoks : (tokenizer zBoundsStr).map env.lexical_cast = ds.map some) :
    generate env self
      = ((generateFrom env { self with mZBounds := ds }).map Prod.fst,
          { self with mZBounds := ds }) := by
  simp [generate, hkey, pushTokens_ok env.lexical_cast _ ds _ htoks, hfresh]

theorem generate_spec (self : Map2Cat) (c : GenerationConfig) (counts : List Nat)
    (h : ValidRun env self c counts) :
    ∃ rows : List Line,
      generateFrom env { self with mZBounds := [c.zMin, c.zMax] }
        = .ok (⟨c.outputPath, headerLine c.delimiter :: rows⟩, genAfter env c counts.sum) ∧
      generate env self
        = (.ok ⟨c.outputPath, headerLine c.delimiter :: rows⟩,
            { self with mZBounds := [c.zMin, c.zMax] }) ∧
      rows.length = counts.sum ∧
      ∀ p j e1 e2 cp, counts[p]? = some cp → j < cp →
        self.mMapE1.map[p]? = some e1 → self.mMapE2.map[p]? = some e2 →
        rows[rowsBefore counts p + j]?
          = some (galaxyRow env c.zMin c.zMax c.sigmaE c.delimiter e1 e2
              (env.pix2ang self.mMapN.scheme self.mMapN.Npix p)
              (genAfter env c (rowsBefore counts p + j))) := by
  obtain ⟨rows, hrows, hlen, hget⟩ :=
    pixelLoop_spec env { self with mZBounds := [c.zMin, c.zMax] } c.zMin c.zMax c.sigmaE
      c.delimiter counts (env.mt19937 c.randomSeed) h.counts_defined h.npix_e1 h.npix_e2
      self.mMapN.Npix 0 (by simp)
  have hclen : counts.length = self.mMapN.Npix := counts_length self counts h.counts_defined
  have h0 : rowsBefore counts 0 = 0 := by simp [rowsBefore]
  have hall : rowsBefore counts (0 + self.mMapN.Npix) = counts.sum := by
    rw [Nat.zero_add, ← hclen, rowsBefore_length]
  rw [h0, hall] at hrows
  rw [h0, hall] at hlen
  have hfrom : generateFrom env { self with mZBounds := [c.zMin, c.zMax] }
      = .ok (⟨c.outputPath, headerLine c.delimiter :: rows⟩, genAfter env c counts.sum) := by
    have hr := hrows
    simp only [Function.iterate_zero, id_eq] at hr
    simp only [generateFrom, h.bounds_ordered, h.seed_key, h.sigma_key, h.file_key,
      h.delimiter_key, hr, bind, Except.bind, pure, Except.pure]
    rfl
  refine ⟨rows, hfrom, ?_, by omega, ?_⟩
  · rw [generate_of_tokens env self c.zBoundsStr [c.zMin, c.zMax] h.fresh h.bounds_key
      h.bounds_tokens, hfrom]
    rfl
  · intro p j e1 e2 cp hcp hj h1 h2
    have := hget p j e1 e2 cp (Nat.zero_le _) hcp hj h1 h2
    rw [h0, Nat.sub_zero] at this
    exact this

end Run

/-! ## The sample run -/

theorem sample_validRun : ValidRun sampleEnv sampleObject sampleConfig [2, 0, 1] where
  fresh := rfl
  bounds_key := by decide
  bounds_tokens := by decide!
  bounds_ordered := by decide!
  seed_key := by decide!
  sigma_key := by decide!
  file_key := by decide
  delimiter_key := by decide
  npix_e1 := rfl
  npix_e2 := rfl
  counts_defined := by decide!

/-! ## C1: the number of rows -/

section Claims

variable {G : Type} (env : Env G)

/-- C1. On every valid run `generate` returns a file whose first line is the header
and whose number of data rows (the lines after the header) is the sum over all pixels
of the galaxy counts cast from the count map; an iteration of the pixel loop for a
pixel whose count is `0` writes no row and leaves the random stream as it is. -/
theorem generate_row_count (self : Map2Cat) (c : GenerationConfig) (counts : List Nat)
    (h : ValidRun env self c counts) :
    ∃ f : ofstream, (generate env self).1 = .ok f ∧
      f.lines.head? = some (headerLine c.delimiter) ∧
      counts.length = self.mMapN.Npix ∧
      f.lines.tail.length = counts.sum ∧
      ∀ i gen, counts[i]? = some 0 →
        pixelBody env self c.zMin c.zMax c.sigmaE c.delimiter i gen = .ok ([], gen) := by
  obtain ⟨rows, -, hgen, hlen, -⟩ := generate_spec env self c counts h
  have hclen := counts_length self counts h.counts_defined
  refine ⟨⟨c.outputPath, headerLine c.delimiter :: rows⟩, by rw [hgen], rfl, hclen,
    by simpa using hlen, ?_⟩
  intro i gen hi
  have hiN : i < self.mMapN.Npix := by
    by_contra hlt
    rw [List.getElem?_eq_none (by omega)] at hi
    cases hi
  obtain ⟨n, c0, hn, hc, hci⟩ := counts_getElem? self counts h.counts_defined i hiN
  rw [hi] at hci
  cases hci
  have hi1 : i < self.mMapE1.map.length := by
    have : self.mMapE1.map.length = self.mMapN.Npix := h.npix_e1
    omega
  have hi2 : i < self.mMapE2.map.length := by
    have : self.mMapE2.map.length = self.mMapN.Npix := h.npix_e2
    omega
  rw [pixelBody_ok env self _ _ _ _ i gen n _ _ 0 hn hc (List.getElem?_eq_getElem hi1)
    (List.getElem?_eq_getElem hi2)]
  rfl

end Claims

/-- C1 on the sample run: three pixels with counts 2, 0 and 1 give three rows. -/
theorem generate_row_count_witness :
    ValidRun sampleEnv sampleObject sampleConfig [2, 0, 1] ∧
    ∃ f : ofstream, (generate sampleEnv sampleObject).1 = .ok f ∧
      f.lines.head? = some (headerLine sampleConfig.delimiter) ∧
      [2, 0, 1].length = sampleObject.mMapN.Npix ∧
      f.lines.tail.length = [2, 0, 1].sum ∧
      ∀ i gen, [2, 0, 1][i]? = some 0 →
        pixelBody sampleEnv sampleObject sampleConfig.zMin sampleConfig.zMax
          sampleConfig.sigmaE sampleConfig.delimiter i gen = .ok ([], gen) :=
  ⟨sample_validRun, generate_row_count sampleEnv sampleObject sampleConfig [2, 0, 1]
    sample_validRun⟩

/-! ## C2: the cast of a count-map value -/

theorem truncate_of_nonneg (q : ℚ) (h : 0 ≤ q) : Double.truncate q = ⌊q⌋ := by
  unfold Double.truncate
  rw [Int.tdiv_eq_ediv (Rat.num_nonneg.mpr h) (Int.natCast_nonneg _), Rat.floor_def]

theorem truncate_of_neg (q : ℚ) (h : q < 0) : Double.truncate q = ⌈q⌉ := by
  have h1 : Double.truncate q = -Double.truncate (-q) := by
    unfold Double.truncate
    rw [Rat.num_neg_eq_neg_num q, Rat.neg_den, Int.neg_tdiv, neg_neg]
  rw [h1, truncate_of_nonneg (-q) (by linarith), Int.floor_neg, neg_neg]

theorem toSizeT_in_range (q : ℚ) (hlo : -1 < q) (hhi : q < 2 ^ 64) :
    Double.toSizeT (.finite q) = some (if 0 ≤ q then ⌊q⌋.toNat else 0) := by
  by_cases h0 : 0 ≤ q
  · have hf0 : 0 ≤ ⌊q⌋ := Int.floor_nonneg.mpr h0
    have hf1 : ⌊q⌋ < 2 ^ 64 := by
      rw [Int.floor_lt]
      exact_mod_cast hhi
    simp only [Double.toSizeT, truncate_of_nonneg q h0, h0, if_true]
    rw [if_pos ⟨hf0, hf1⟩]
  · have hq : q < 0 := lt_of_not_ge h0
    have hc : ⌈q⌉ = 0 := by
      rw [Int.ceil_eq_iff]
      constructor
      · simpa using hlo
      · simpa using hq.le
    simp [Double.toSizeT, truncate_of_neg q hq, hc, h0]

theorem toSizeT_out_of_range (q : ℚ) (h : q ≤ -1 ∨ 2 ^ 64 ≤ q) :
    Double.toSizeT (.finite q) = none := by
  rcases h with h | h
  · have hq : q < 0 := by linarith
    have hc : ⌈q⌉ ≤ -1 := by
      rw [Int.ceil_le]
      simpa using h
    have : ¬ (0 ≤ ⌈q⌉) := by omega
    simp [Double.toSizeT, truncate_of_neg q hq, this]
  · have h0 : 0 ≤ q := le_trans (by positivity) h
    have hf : (2 : ℤ) ^ 64 ≤ ⌊q⌋ := by
      rw [Int.le_floor]
      exact_mod_cast h
    have : ¬ (⌊q⌋ < 2 ^ 64) := by omega
    simp only [Double.toSizeT, truncate_of_nonneg q h0]
    rw [if_neg (fun hh => this hh.2)]

section Claims

variable {G : Type} (env : Env G)

/-- C2 (amended). For a pixel whose count-map value is a finite `q` with
`-1 < q < 2 ^ 64`, the count `generate` derives is the integer part of `q` (the floor
of `q` for `0 ≤ q`, and `0` for `-1 < q < 0`) and the iteration for that pixel writes
exactly that many rows.  Nothing clamps: for `q ≤ -1`, for `2 ^ 64 ≤ q` and for a value
that is not finite the cast has no value and the iteration is undefined. -/
theorem derived_count_truncates (self : Map2Cat) (z0 z1 sigma_e : Double)
    (delimiter : String) (i : Nat) (gen : G) (n e1 e2 : Double)
    (hn : self.mMapN.map[i]? = some n) (h1 : self.mMapE1.map[i]? = some e1)
    (h2 : self.mMapE2.map[i]? = some e2) :
    (∀ q : ℚ, n = .finite q → -1 < q → q < 2 ^ 64 →
      n.toSizeT = some (if 0 ≤ q then ⌊q⌋.toNat else 0) ∧
      ∃ rows, pixelBody env self z0 z1 sigma_e delimiter i gen = .ok rows ∧
        rows.1.length = (if 0 ≤ q then ⌊q⌋.toNat else 0)) ∧
    (∀ q : ℚ, n = .finite q → q ≤ -1 ∨ 2 ^ 64 ≤ q →
      n.toSizeT = none ∧
      pixelBody env self z0 z1 sigma_e delimiter i gen = .error .undefined_behaviour) ∧
    (n.isFinite = false →
      n.toSizeT = none ∧
      pixelBody env self z0 z1 sigma_e delimiter i gen = .error .undefined_behaviour) := by
  refine ⟨?_, ?_, ?_⟩
  · intro q hq hlo hhi
    subst hq
    have hc := toSizeT_in_range q hlo hhi
    refine ⟨hc, _, pixelBody_ok env self z0 z1 sigma_e delimiter i gen _ e1 e2 _ hn hc h1 h2, ?_⟩
    rw [galaxyLoop_length]
  · intro q hq hr
    subst hq
    have hc := toSizeT_out_of_range q hr
    exact ⟨hc, by simp [pixelBody, hn, h1, h2, hc]⟩
  · intro hf
    have hc : n.toSizeT = none := by
      cases n with
      | finite q => simp [Double.isFinite] at hf
      | posInf => rfl
      | negInf => rfl
      | nan => rfl
    exact ⟨hc, by simp [pixelBody, hn, h1, h2, hc]⟩

end Claims

/-- C2 on the sample object: pixel 1 has the count-map value `1/2`, so its count is
`0` and its iteration writes no row. -/
theorem derived_count_truncates_witness :
    sampleObject.mMapN.map[1]? = some (.finite (1 / 2)) ∧
    (Double.finite (1 / 2)).toSizeT = some (if (0 : ℚ) ≤ 1 / 2 then ⌊(1 / 2 : ℚ)⌋.toNat else 0) ∧
    ∃ rows, pixelBody sampleEnv sampleObject (.finite (1 / 2)) (.finite (3 / 5))
        (.finite (1 / 4)) ";" 1 7 = .ok rows ∧
      rows.1.length = (if (0 : ℚ) ≤ 1 / 2 then ⌊(1 / 2 : ℚ)⌋.toNat else 0) :=
  ⟨by decide!, (derived_count_truncates sampleEnv sampleObject (.finite (1 / 2))
    (.finite (3 / 5)) (.finite (1 / 4)) ";" 1 7 (.finite (1 / 2)) (.finite (1 / 5))
    (.finite 0) (by decide!) (by decide!) (by decide!)).1 (1 / 2) rfl (by norm_num)
    (by norm_num)⟩

/-- C2 as stated fails: the count-map value `-1` is negative and the count derived from
it is not `0`; the cast has no value, and the run on the sample object with `-1` at
pixel 1 does not write a file. -/
theorem negative_count_not_clamped :
    (Double.finite (-1)).toSizeT ≠ some 0 ∧
    negativeCountObject.mMapN.map[1]? = some (.finite (-1)) ∧
    (generate sampleEnv negativeCountObject).1 = .error .undefined_behaviour := by
  decide!

/-! ## C3 and C4: validation of the bounds -/

theorem ge_eq_not_lt (a b : Double) (ha : a.isNumber = true) (hb : b.isNumber = true) :
    a.ge b = !a.lt b := by
  cases a with
  | finite x =>
      cases b with
      | finite y =>
          by_cases h : y ≤ x
          · simp [Double.ge, Double.lt, h, not_lt.mpr h]
          · simp [Double.ge, Double.lt, h, lt_of_not_ge h]
      | posInf => rfl
      | negInf => rfl
      | nan => simp [Double.isNumber] at hb
  | posInf => cases b <;> simp_all [Double.ge, Double.lt, Double.isNumber]
  | negInf => cases b <;> simp_all [Double.ge, Double.lt, Double.isNumber]
  | nan => simp [Double.isNumber] at ha

section Claims

variable {G : Type} (env : Env G)

theorem pixelBody_error (self : Map2Cat) (z0 z1 sigma_e : Double) (delimiter : String)
    (i : Nat) (gen : G) (e : Error)
    (h : pixelBody env self z0 z1 sigma_e delimiter i gen = .error e) :
    e = .undefined_behaviour := by
  unfold pixelBody at h
  split at h
  · split at h
    · cases h
      rfl
    · cases h
  · cases h
    rfl

theorem pixelLoop_error (self : Map2Cat) (z0 z1 sigma_e : Double) (delimiter : String)
    (left i : Nat) (gen : G) (e : Error)
    (h : pixelLoop env self z0 z1 sigma_e delimiter left i gen = .error e) :
    e = .undefined_behaviour := by
  induction left generalizing i gen with
  | zero => cases h
  | succ left ih =>
      unfold pixelLoop at h
      split at h
      · rename_i e1 hb
        cases h
        exact pixelBody_error env self z0 z1 sigma_e delimiter i gen _ hb
      · split at h
        · rename_i e1 hl
          cases h
          exact ih _ _ hl
        · cases h

theorem get_string_error (t : propertyTreeType) (path : String) (e : Error)
    (h : get_string t path = .error e) : e = .ptree_bad_path path := by
  unfold get_string at h
  split at h
  · cases h
    rfl
  · cases h

theorem get_size_t_error (t : propertyTreeType) (path : String) (e : Error)
    (h : get_size_t env t path = .error e) :
    e = .ptree_bad_path path ∨ e = .ptree_bad_data path := by
  unfold get_size_t at h
  split at h
  · cases h
    exact Or.inl rfl
  · split at h
    · cases h
      exact Or.inr rfl
    · cases h

theorem get_double_error (t : propertyTreeType) (path : String) (e : Error)
    (h : get_double env t path = .error e) :
    e = .ptree_bad_path path ∨ e = .ptree_bad_data path := by
  unfold get_double at h
  split at h
  · cases h
    exact Or.inl rfl
  · split at h
    · cases h
      exact Or.inr rfl
    · cases h

/-- Once the vector holds two values whose comparison `>=` is false, `generate` throws
no `runtime_error`. -/
theorem generateFrom_no_runtime_error (self : Map2Cat) (z0 z1 : Double)
    (hb : self.mZBounds = [z0, z1]) (hge : z0.ge z1 = false) (msg : String) :
    generateFrom env self ≠ .error (.runtime_error msg) := by
  intro h
  simp only [generateFrom, hb, hge, bind, Except.bind, pure, Except.pure,
    Bool.false_eq_true, if_false] at h
  cases h1 : get_size_t env self.mPropTree "input.rand_seed" with
  | error e =>
      simp only [h1] at h
      cases h
      rcases get_size_t_error env _ _ _ h1 with he | he <;> cases he
  | ok seed =>
      simp only [h1] at h
      cases h2 : get_double env self.mPropTree "input.sigma_e" with
      | error e =>
          simp only [h2] at h
          cases h
          rcases get_double_error env _ _ _ h2 with he | he <;> cases he
      | ok sigma =>
          simp only [h2] at h
          cases h3 : get_string self.mPropTree "output.catlogue_file_name" with
          | error e =>
              simp only [h3] at h
              cases h
              cases get_string_error _ _ _ h3
          | ok name =>
              simp only [h3] at h
              cases h4 : get_string self.mPropTree "output.delimiter" with
              | error e =>
                  simp only [h4] at h
                  cases h
                  cases get_string_error _ _ _ h4
              | ok delim =>
                  simp only [h4] at h
                  cases h5 : pixelLoop env self z0 z1 sigma delim self.mMapN.Npix 0
                      (env.mt19937 seed) with
                  | error e =>
                      simp only [h5] at h
                      cases h
                      cases pixelLoop_error env _ _ _ _ _ _ _ _ _ h5
                  | ok rows =>
                      simp only [h5] at h
                      cases h

/-- The order check on numbers.  On a freshly constructed object whose bounds string has
two tokens that `lexical_cast` reads as `lo` and `hi`, neither of them NaN: when `lo` is
not strictly less than `hi`, `generate` throws the runtime error on the order of the
bounds; hence whenever `generate` does not throw that error, `lo < hi`, and `lo`, `hi`
are the bounds the object holds. -/
theorem bounds_order_validated (self : Map2Cat) (zBoundsStr : String) (lo hi : Double)
    (hfresh : self.mZBounds = [])
    (hkey : get_string self.mPropTree "input.z_bounds" = .ok zBoundsStr)
    (htoks : (tokenizer zBoundsStr).map env.lexical_cast = [some lo, some hi])
    (hlo : lo.isNumber = true) (hhi : hi.isNumber = true) :
    (lo.lt hi = false →
      (generate env self).1 = .error
        (.runtime_error "The upper bound should be greater than the lower bound.")) ∧
    ((generate env self).1 ≠ .error
        (.runtime_error "The upper bound should be greater than the lower bound.") →
      lo.lt hi = true) ∧
    (generate env self).2.mZBounds = [lo, hi] := by
  have hgen := generate_of_tokens env self zBoundsStr [lo, hi] hfresh hkey htoks
  have hfail : lo.lt hi = false →
      (generate env self).1 = .error
        (.runtime_error "The upper bound should be greater than the lower bound.") := by
    intro hlt
    have hge : lo.ge hi = true := by rw [ge_eq_not_lt lo hi hlo hhi, hlt]; rfl
    rw [hgen]
    simp [generateFrom, hge, Except.map]
  refine ⟨hfail, ?_, by rw [hgen]⟩
  intro hne
  cases hlt : lo.lt hi with
  | true => rfl
  | false => exact absurd (hfail hlt) hne

/-- C4. On a freshly constructed object whose bounds string consists of tokens that
`lexical_cast` accepts: when the number of tokens is not 2, `generate` throws the
runtime error on the number of values, and when it is 2 that error is not thrown. -/
theorem bounds_arity_validated (self : Map2Cat) (zBoundsStr : String) (ds : List Double)
    (hfresh : self.mZBounds = [])
    (hkey : get_string self.mPropTree "input.z_bounds" = .ok zBoundsStr)
    (htoks : (tokenizer zBoundsStr).map env.lexical_cast = ds.map some) :
    (ds.length ≠ 2 →
      (generate env self).1 = .error
        (.runtime_error "The z-bounds should consist of two values. No more, no less.")) ∧
    (ds.length = 2 →
      (generate env self).1 ≠ .error
        (.runtime_error "The z-bounds should consist of two values. No more, no less.")) := by
  have hgen := generate_of_tokens env self zBoundsStr ds hfresh hkey htoks
  constructor
  · intro hlen
    rw [hgen]
    match ds, hlen with
    | [], _ => rfl
    | [_], _ => rfl
    | [_, _], hlen => exact absurd rfl hlen
    | _ :: _ :: _ :: _, _ => rfl
  · intro hlen
    match ds, hlen, hgen with
    | [z0, z1], _, hgen =>
        rw [hgen]
        cases hge : z0.ge z1 with
        | true =>
            simp [generateFrom, hge, Except.map]
        | false =>
            have hno := generateFrom_no_runtime_error env { self with mZBounds := [z0, z1] }
              z0 z1 rfl hge "The z-bounds should consist of two values. No more, no less."
            intro h
            apply hno
            cases hf : generateFrom env { self with mZBounds := [z0, z1] } with
            | error e =>
                rw [hf] at h
                simpa [Except.map] using h
            | ok v =>
                rw [hf] at h
                simp [Except.map] at h

end Claims

/-- The order check on the sample object with the bounds string `0.1,0.1`. -/
theorem bounds_order_validated_sample :
    (Double.finite (1 / 10)).lt (.finite (1 / 10)) = false ∧
    (generate sampleEnv (sampleObjectWith (sampleTreeWithBounds "0.1,0.1"))).1 = .error
      (.runtime_error "The upper bound should be greater than the lower bound.") :=
  ⟨by decide!, (bounds_order_validated sampleEnv
    (sampleObjectWith (sampleTreeWithBounds "0.1,0.1")) "0.1,0.1" (.finite (1 / 10))
    (.finite (1 / 10)) rfl (by decide) (by decide!) rfl rfl).1 (by decide!)⟩

/-- C3. The order check of `generate` lets a NaN bound through: the bounds string
`nan,0.5` has two tokens, read as NaN and `1/2`; the comparison `>=` of the two is
false, so no runtime error is thrown, the run writes its file of four lines and the
object holds the bounds NaN and `1/2`, although NaN is not less than `1/2`. -/
theorem nan_bounds_pass_validation :
    (tokenizer "nan,0.5").map sampleEnv.lexical_cast = [some .nan, some (.finite (1 / 2))] ∧
    Double.ge .nan (.finite (1 / 2)) = false ∧
    (generate sampleEnv (sampleObjectWith (sampleTreeWithBounds "nan,0.5"))).1.map
      (fun f => f.lines.length) = .ok 4 ∧
    (generate sampleEnv (sampleObjectWith (sampleTreeWithBounds "nan,0.5"))).2.mZBounds
      = [.nan, .finite (1 / 2)] ∧
    Double.lt .nan (.finite (1 / 2)) = false := by
  decide!

/-- C4 on the sample object with the bounds string `0.1,0.2,0.3`. -/
theorem bounds_arity_validated_witness :
    [Double.finite (1 / 10), .finite (1 / 5), .finite (3 / 10)].length ≠ 2 ∧
    (generate sampleEnv (sampleObjectWith (sampleTreeWithBounds "0.1,0.2,0.3"))).1 = .error
      (.runtime_error "The z-bounds should consist of two values. No more, no less.") :=
  ⟨by decide, (bounds_arity_validated sampleEnv
    (sampleObjectWith (sampleTreeWithBounds "0.1,0.2,0.3")) "0.1,0.2,0.3"
    [.finite (1 / 10), .finite (1 / 5), .finite (3 / 10)] rfl (by decide) (by decide!)).1
    (by decide)⟩

/-! ## C5 and C6: the object after a run, and the keys looked up -/

section Claims

variable {G : Type} (env : Env G)

/-- After a valid run the vector `mZBounds` keeps its two values, and a second call of
`generate` on the object pushes two more and throws the runtime error on the number of
values. -/
theorem generate_twice (self : Map2Cat) (c : GenerationConfig) (counts : List Nat)
    (h : ValidRun env self c counts) :
    (generate env self).2.mZBounds = [c.zMin, c.zMax] ∧
    generate env (generate env self).2
      = (.error (.runtime_error "The z-bounds should consist of two values. No more, no less."),
          { self with mZBounds := [c.zMin, c.zMax, c.zMin, c.zMax] }) := by
  obtain ⟨rows, -, hgen, -, -⟩ := generate_spec env self c counts h
  rw [hgen]
  refine ⟨rfl, ?_⟩
  have hkey : get_string self.mPropTree "input.z_bounds" = .ok c.zBoundsStr := h.bounds_key
  simp [generate, hkey,
    pushTokens_ok env.lexical_cast _ [c.zMin, c.zMax] [c.zMin, c.zMax] h.bounds_tokens,
    generateFrom, Except.map]

end Claims

/-- C5. The bounds parsing of `generate` changes the object: on the sample object the
first call writes the file of four lines and leaves the two bounds in `mZBounds`; the
second call, with the same bounds string, finds four values there and throws the
runtime error on the number of values. -/
theorem second_generate_fails :
    (generate sampleEnv sampleObject).1.map (fun f => f.lines.length) = .ok 4 ∧
    sampleObject.mZBounds = [] ∧
    (generate sampleEnv sampleObject).2.mZBounds = [.finite (1 / 2), .finite (3 / 5)] ∧
    (generate sampleEnv (generate sampleEnv sampleObject).2).2.mZBounds
      = [.finite (1 / 2), .finite (3 / 5), .finite (1 / 2), .finite (3 / 5)] ∧
    (generate sampleEnv (generate sampleEnv sampleObject).2).1 = .error
      (.runtime_error "The z-bounds should consist of two values. No more, no less.") := by
  decide!

/-- C6. The key `generate` looks up for the name of the catalogue file is
`output.catlogue_file_name`: on a tree that holds the six keys with
`output.catalogue_file_name`, the call ends with `ptree_bad_path` for the key it looks
up, and on the sample tree, which holds `output.catlogue_file_name`, the file is
written under the name stored there. -/
theorem catalogue_key_not_found :
    catalogueKeyTree.lookup "output.catalogue_file_name" = some "cat.txt" ∧
    (generate sampleEnv (sampleObjectWith catalogueKeyTree)).1
      = .error (.ptree_bad_path "output.catlogue_file_name") ∧
    sampleTree.lookup "output.catlogue_file_name" = some "cat.txt" ∧
    (generate sampleEnv sampleObject).1.map (fun f => f.fileName) = .ok "cat.txt" := by
  decide!

/-! ## C7: right ascension and declination -/

theorem raOf_finite (θ φ : ℚ) :
    raOf ⟨.finite θ, .finite φ⟩ = .finite (φ * 180 / piValue + 0) := by
  show Double.add (Double.div (.finite φ) (Double.div M_PI (.finite 180))) rotPhi = _
  simp only [M_PI, rotPhi, Double.div, Double.add, piValue]
  norm_num
  field_simp
  ring

theorem decOf_finite (θ φ : ℚ) :
    decOf ⟨.finite θ, .finite φ⟩ = .finite (90 - θ * 180 / piValue) := by
  show Double.div (Double.neg (Double.sub (.finite θ) (Double.mul M_PI (.finite (1 / 2)))))
    (Double.div M_PI (.finite 180)) = _
  simp only [M_PI, Double.div, Double.sub, Double.add, Double.neg, Double.mul, piValue]
  norm_num
  field_simp
  ring

theorem exists_pixel_below (counts : List Nat) (r n : Nat)
    (h : r < rowsBefore counts n) :
    ∃ p cp, counts[p]? = some cp ∧ rowsBefore counts p ≤ r ∧ r < rowsBefore counts p + cp := by
  induction n with
  | zero => simp [rowsBefore] at h
  | succ n ih =>
      rcases Nat.lt_or_ge r (rowsBefore counts n) with h1 | h1
      · exact ih h1
      · cases hc : counts[n]? with
        | none =>
            have : rowsBefore counts (n + 1) = rowsBefore counts n := by
              simp [rowsBefore, List.take_succ, hc]
            omega
        | some cn =>
            rw [rowsBefore_succ counts n cn hc] at h
            exact ⟨n, cn, hc, h1, h⟩

theorem exists_pixel (counts : List Nat) (r : Nat) (h : r < counts.sum) :
    ∃ p cp, counts[p]? = some cp ∧ rowsBefore counts p ≤ r ∧ r < rowsBefore counts p + cp :=
  exists_pixel_below counts r counts.length (by rw [rowsBefore_length]; exact h)

theorem pixel_unique (counts : List Nat) (r p q cp cq : Nat)
    (hp : counts[p]? = some cp) (hq : counts[q]? = some cq)
    (hp1 : rowsBefore counts p ≤ r) (hp2 : r < rowsBefore counts p + cp)
    (hq1 : rowsBefore counts q ≤ r) (hq2 : r < rowsBefore counts q + cq) : p = q := by
  rcases Nat.lt_trichotomy p q with hlt | heq | hgt
  · have := rowsBefore_mono counts (p + 1) q hlt
    rw [rowsBefore_succ counts p cp hp] at this
    omega
  · exact heq
  · have := rowsBefore_mono counts (q + 1) p hgt
    rw [rowsBefore_succ counts q cq hq] at this
    omega

theorem map_getElem?_of_counts (self : Map2Cat) (counts : List Nat)
    (hN : self.mMapN.map.map Double.toSizeT = counts.map some) (m : mapType)
    (hm : m.Npix = self.mMapN.Npix) (p cp : Nat) (hcp : counts[p]? = some cp) :
    ∃ e, m.map[p]? = some e := by
  have hlen := counts_length self counts hN
  have hp : p < counts.length := by
    by_contra hlt
    rw [List.getElem?_eq_none (by omega)] at hcp
    cases hcp
  have : p < m.map.length := by
    have : m.map.length = self.mMapN.Npix := hm
    omega
  exact ⟨m.map[p], List.getElem?_eq_getElem this⟩

section Claims

variable {G : Type} (env : Env G)

/-- C7. On every valid run, every row written for a pixel `p` carries the right
ascension and the declination computed from `pix2ang(p)`, the same for all rows of the
pixel; for a direction with finite `theta` and `phi` these are
`ra = phi * 180 / M_PI + 0` and `dec = 90 - theta * 180 / M_PI` in exact arithmetic. -/
theorem rows_carry_pixel_direction (self : Map2Cat) (c : GenerationConfig)
    (counts : List Nat) (h : ValidRun env self c counts) :
    ∃ f : ofstream, (generate env self).1 = .ok f ∧
      (∀ p j cp, counts[p]? = some cp → j < cp →
        ∃ zVal e1Val e2Val, f.lines.tail[rowsBefore counts p + j]?
          = some (.row c.delimiter
              (raOf (env.pix2ang self.mMapN.scheme self.mMapN.Npix p))
              (decOf (env.pix2ang self.mMapN.scheme self.mMapN.Npix p))
              zVal e1Val e2Val)) ∧
      (∀ p (θ φ : ℚ), env.pix2ang self.mMapN.scheme self.mMapN.Npix p = ⟨.finite θ, .finite φ⟩ →
        raOf (env.pix2ang self.mMapN.scheme self.mMapN.Npix p)
          = .finite (φ * 180 / piValue + 0) ∧
        decOf (env.pix2ang self.mMapN.scheme self.mMapN.Npix p)
          = .finite (90 - θ * 180 / piValue)) := by
  obtain ⟨rows, -, hgen, -, hget⟩ := generate_spec env self c counts h
  refine ⟨⟨c.outputPath, headerLine c.delimiter :: rows⟩, by rw [hgen], ?_, ?_⟩
  · intro p j cp hcp hj
    obtain ⟨e1, h1⟩ := map_getElem?_of_counts self counts h.counts_defined
      self.mMapE1 h.npix_e1 p cp hcp
    obtain ⟨e2, h2⟩ := map_getElem?_of_counts self counts h.counts_defined
      self.mMapE2 h.npix_e2 p cp hcp
    exact ⟨_, _, _, hget p j e1 e2 cp hcp hj h1 h2⟩
  · intro p θ φ hp
    rw [hp]
    exact ⟨raOf_finite θ φ, decOf_finite θ φ⟩

/-- C8. On every valid run the rows are written pixel by pixel in ascending order of
the pixel, and within a pixel in the order in which the galaxies are drawn: all rows of
a pixel `i` come before the first row of a pixel `k > i`; the row at position
`rowsBefore p + j` is the row of the `j`-th galaxy of pixel `p`, the galaxy drawn from
the random stream after the `rowsBefore p + j` galaxies before it, and it is the `j`-th
row the inner loop writes for that pixel; and every row position belongs to exactly
one pixel. -/
theorem rows_in_pixel_order (self : Map2Cat) (c : GenerationConfig)
    (counts : List Nat) (h : ValidRun env self c counts) :
    ∃ f : ofstream, (generate env self).1 = .ok f ∧
      (∀ i k ci, i < k → counts[i]? = some ci →
        rowsBefore counts i + ci ≤ rowsBefore counts k) ∧
      (∀ p j cp e1 e2, counts[p]? = some cp → j < cp →
        self.mMapE1.map[p]? = some e1 → self.mMapE2.map[p]? = some e2 →
        f.lines.tail[rowsBefore counts p + j]?
          = some (.row c.delimiter
              (raOf (env.pix2ang self.mMapN.scheme self.mMapN.Npix p))
              (decOf (env.pix2ang self.mMapN.scheme self.mMapN.Npix p))
              (env.dist_z c.zMin c.zMax (genAfter env c (rowsBefore counts p + j))).1
              (e1 + (env.dist_e (env.dist_z c.zMin c.zMax
                (genAfter env c (rowsBefore counts p + j))).2).1 * c.sigmaE)
              (e2 + (env.dist_e (env.dist_e (env.dist_z c.zMin c.zMax
                (genAfter env c (rowsBefore counts p + j))).2).2).1 * c.sigmaE)) ∧
        (galaxyLoop env c.zMin c.zMax c.sigmaE c.delimiter e1 e2
              (raOf (env.pix2ang self.mMapN.scheme self.mMapN.Npix p))
              (decOf (env.pix2ang self.mMapN.scheme self.mMapN.Npix p)) cp
              (genAfter env c (rowsBefore counts p))).1[j]?
          = f.lines.tail[rowsBefore counts p + j]?) ∧
      (∀ r, r < f.lines.tail.length →
        ∃! p, ∃ cp, counts[p]? = some cp ∧
          rowsBefore counts p ≤ r ∧ r < rowsBefore counts p + cp) := by
  obtain ⟨rows, -, hgen, hlen, hget⟩ := generate_spec env self c counts h
  refine ⟨⟨c.outputPath, headerLine c.delimiter :: rows⟩, by rw [hgen], ?_, ?_, ?_⟩
  · intro i k ci hik hci
    have := rowsBefore_mono counts (i + 1) k hik
    rw [rowsBefore_succ counts i ci hci] at this
    exact this
  · intro p j cp e1 e2 hcp hj h1 h2
    have hrow := hget p j e1 e2 cp hcp hj h1 h2
    refine ⟨hrow, ?_⟩
    rw [galaxyLoop_getElem? env _ _ _ _ _ _ _ _ _ hj]
    simp only [List.tail_cons]
    rw [hrow]
    simp only [genAfter, Nat.add_comm (rowsBefore counts p) j, Function.iterate_add_apply]
  · intro r hr
    simp only [List.tail_cons] at hr
    obtain ⟨p, cp, hcp, hp1, hp2⟩ := exists_pixel counts r (by omega)
    refine ⟨p, ⟨cp, hcp, hp1, hp2⟩, ?_⟩
    rintro q ⟨cq, hcq, hq1, hq2⟩
    exact pixel_unique counts r q p cq cp hcq hcp hq1 hq2 hp1 hp2

/-- C9 (amended). On every valid run every data row carries as redshift the value of
one call of `dist_z`, the uniform distribution constructed with `mZBounds[0]` as lower
and `mZBounds[1]` as upper bound, the row at position `r` taking the call made after
the draws of the `r` galaxies before it.  When the two bounds are numbers the check has
ensured that the lower one is less than the upper one.  The code makes no check of the
value drawn: for finite bounds `a < b`, when the calls of this distribution return
finite values in the half-open interval from `a` to `b`, so does every row. -/
theorem redshift_is_uniform_draw (self : Map2Cat) (c : GenerationConfig)
    (counts : List Nat) (h : ValidRun env self c counts) :
    ∃ f : ofstream, (generate env self).1 = .ok f ∧
      (generate env self).2.mZBounds = [c.zMin, c.zMax] ∧
      (c.zMin.isNumber = true → c.zMax.isNumber = true → c.zMin.lt c.zMax = true) ∧
      (∀ r, r < f.lines.tail.length →
        ∃ ra dec e1Val e2Val,
          f.lines.tail[r]? = some (.row c.delimiter ra dec
            (env.dist_z c.zMin c.zMax (genAfter env c r)).1 e1Val e2Val)) ∧
      (∀ a b : ℚ, c.zMin = .finite a → c.zMax = .finite b →
        a < b ∧
        ((∀ gen, ∃ z : ℚ, (env.dist_z (.finite a) (.finite b) gen).1 = .finite z ∧
            a ≤ z ∧ z < b) →
          ∀ r, r < f.lines.tail.length →
            ∃ ra dec e1Val e2Val z,
              f.lines.tail[r]? = some (.row c.delimiter ra dec (.finite z) e1Val e2Val) ∧
              a ≤ z ∧ z < b)) := by
  obtain ⟨rows, -, hgen, hlen, hget⟩ := generate_spec env self c counts h
  have hrows : ∀ r, r < rows.length →
      ∃ ra dec e1Val e2Val,
        rows[r]? = some (.row c.delimiter ra dec
          (env.dist_z c.zMin c.zMax (genAfter env c r)).1 e1Val e2Val) := by
    intro r hr
    obtain ⟨p, cp, hcp, hp1, hp2⟩ := exists_pixel counts r (by omega)
    obtain ⟨e1, h1⟩ := map_getElem?_of_counts self counts h.counts_defined
      self.mMapE1 h.npix_e1 p cp hcp
    obtain ⟨e2, h2⟩ := map_getElem?_of_counts self counts h.counts_defined
      self.mMapE2 h.npix_e2 p cp hcp
    have hrow := hget p (r - rowsBefore counts p) e1 e2 cp hcp (by omega) h1 h2
    rw [show rowsBefore counts p + (r - rowsBefore counts p) = r by omega] at hrow
    exact ⟨_, _, _, _, hrow⟩
  refine ⟨⟨c.outputPath, headerLine c.delimiter :: rows⟩, by rw [hgen], by rw [hgen],
    ?_, ?_, ?_⟩
  · intro hlo hhi
    have hge := h.bounds_ordered
    rw [ge_eq_not_lt c.zMin c.zMax hlo hhi] at hge
    cases hlt : c.zMin.lt c.zMax with
    | true => rfl
    | false => rw [hlt] at hge; cases hge
  · intro r hr
    simp only [List.tail_cons] at hr ⊢
    exact hrows r hr
  · intro a b ha hb
    have hab : a < b := by
      have := h.bounds_ordered
      rw [ha, hb] at this
      simpa [Double.ge] using this
    refine ⟨hab, ?_⟩
    intro hdraw r hr
    simp only [List.tail_cons] at hr ⊢
    obtain ⟨ra, dec, e1Val, e2Val, hrow⟩ := hrows r hr
    obtain ⟨z, hz, hz1, hz2⟩ := hdraw (genAfter env c r)
    rw [ha, hb, hz] at hrow
    exact ⟨ra, dec, e1Val, e2Val, z, hrow, hz1, hz2⟩

theorem add_mul_zero (x n : Double) (hn : n.isFinite = true) : x + n * .finite 0 = x := by
  cases n with
  | finite q =>
      show Double.add x (Double.mul (.finite q) (.finite 0)) = x
      cases x <;> simp [Double.add, Double.mul]
  | posInf => simp [Double.isFinite] at hn
  | negInf => simp [Double.isFinite] at hn
  | nan => simp [Double.isFinite] at hn

/-- C10. On every valid run the random stream is used by the galaxies alone, three
draws each in the order `z`, `n1`, `n2`: the run ends with the stream reached after
three draws for each of the rows, and the row at position `r = rowsBefore p + j`, for
pixel `p`, carries the `z` of the first draw made after `r` galaxies,
`e1 + n1 * sigma_e` with `n1` the second draw and `e2 + n2 * sigma_e` with `n2` the
third, `e1` and `e2` being the shape values of pixel `p`; with `sigma_e` zero and
finite normal draws the two shape values of the row are `e1` and `e2`. -/
theorem three_draws_per_galaxy (self : Map2Cat) (c : GenerationConfig)
    (counts : List Nat) (h : ValidRun env self c counts) :
    ∃ f : ofstream, (generate env self).1 = .ok f ∧
      generateFrom env (generate env self).2 = .ok (f, genAfter env c f.lines.tail.length) ∧
      ∀ p j cp e1 e2, counts[p]? = some cp → j < cp →
        self.mMapE1.map[p]? = some e1 → self.mMapE2.map[p]? = some e2 →
        ∃ ra dec e1Val e2Val,
          f.lines.tail[rowsBefore counts p + j]?
            = some (.row c.delimiter ra dec
                (env.dist_z c.zMin c.zMax (genAfter env c (rowsBefore counts p + j))).1
                e1Val e2Val) ∧
          e1Val = e1 + (env.dist_e (env.dist_z c.zMin c.zMax
            (genAfter env c (rowsBefore counts p + j))).2).1 * c.sigmaE ∧
          e2Val = e2 + (env.dist_e (env.dist_e (env.dist_z c.zMin c.zMax
            (genAfter env c (rowsBefore counts p + j))).2).2).1 * c.sigmaE ∧
          genAfter env c (rowsBefore counts p + j + 1)
            = (env.dist_e (env.dist_e (env.dist_z c.zMin c.zMax
                (genAfter env c (rowsBefore counts p + j))).2).2).2 ∧
          (c.sigmaE = .finite 0 → NormalContract env → e1Val = e1 ∧ e2Val = e2) := by
  obtain ⟨rows, hfrom, hgen, hlen, hget⟩ := generate_spec env self c counts h
  refine ⟨⟨c.outputPath, headerLine c.delimiter :: rows⟩, by rw [hgen], ?_, ?_⟩
  · rw [hgen]
    simp only [List.tail_cons]
    rw [hlen]
    exact hfrom
  · intro p j cp e1 e2 hcp hj h1 h2
    refine ⟨_, _, _, _, hget p j e1 e2 cp hcp hj h1 h2, rfl, rfl, ?_, ?_⟩
    · simp only [genAfter, Function.iterate_succ_apply']
      rfl
    · intro hs hnorm
      rw [hs]
      exact ⟨add_mul_zero _ _ (hnorm _), add_mul_zero _ _ (hnorm _)⟩

end Claims

/-! ## The claims on the sample run -/

theorem sample_draws_in_range (a b : ℚ) (hab : a < b) (g : Nat) :
    ∃ z : ℚ, (sampleEnv.dist_z (.finite a) (.finite b) g).1 = .finite z ∧ a ≤ z ∧ z < b := by
  have hmod : g % 4 ≤ 3 := by omega
  have ht0 : (0 : ℚ) ≤ ((g % 4 : ℕ) : ℚ) / 4 := by positivity
  have ht1 : ((g % 4 : ℕ) : ℚ) / 4 ≤ 3 / 4 := by
    have : ((g % 4 : ℕ) : ℚ) ≤ 3 := by exact_mod_cast hmod
    linarith
  refine ⟨a + (b + -a) * (((g % 4 : ℕ) : ℚ) / 4), rfl, ?_, ?_⟩
  · nlinarith
  · nlinarith

theorem sample_normalContract : NormalContract sampleEnv := by
  intro g
  rfl

theorem noNoise_validRun :
    ValidRun sampleEnv (sampleObjectWith noNoiseTree) noNoiseConfig [2, 0, 1] where
  fresh := rfl
  bounds_key := by decide
  bounds_tokens := by decide!
  bounds_ordered := by decide!
  seed_key := by decide!
  sigma_key := by decide!
  file_key := by decide
  delimiter_key := by decide
  npix_e1 := rfl
  npix_e2 := rfl
  counts_defined := by decide!

/-- C7 on the sample run: the row at position 2 is the row of pixel 2, whose direction
is `theta = 3`, `phi = 4`. -/
theorem rows_carry_pixel_direction_witness :
    ValidRun sampleEnv sampleObject sampleConfig [2, 0, 1] ∧
    ∃ f : ofstream, (generate sampleEnv sampleObject).1 = .ok f ∧
      ∃ zVal e1Val e2Val, f.lines.tail[2]?
        = some (.row ";" (.finite (4 * 180 / piValue + 0)) (.finite (90 - 3 * 180 / piValue))
            zVal e1Val e2Val) := by
  refine ⟨sample_validRun, ?_⟩
  obtain ⟨f, hf, hrow, hform⟩ :=
    rows_carry_pixel_direction sampleEnv sampleObject sampleConfig [2, 0, 1] sample_validRun
  obtain ⟨zVal, e1Val, e2Val, hr⟩ := hrow 2 0 1 rfl (by decide)
  have hp := hform 2 3 4 (by decide!)
  rw [hp.1, hp.2] at hr
  exact ⟨f, hf, zVal, e1Val, e2Val, hr⟩

/-- C8 on the sample run: the two rows of pixel 0 are at positions 0 and 1 in the order
of their draws (redshifts `23/40`, then `11/20`), they come before the row of pixel 2,
which is at position 2, and the second row of pixel 0 is the second row of the inner
loop. -/
theorem rows_in_pixel_order_witness :
    ValidRun sampleEnv sampleObject sampleConfig [2, 0, 1] ∧
    ∃ f : ofstream, (generate sampleEnv sampleObject).1 = .ok f ∧
      rowsBefore [2, 0, 1] 0 + 2 ≤ rowsBefore [2, 0, 1] 2 ∧
      (f.lines.tail[0]?).bind Line.zVal = some (.finite (23 / 40)) ∧
      (f.lines.tail[1]?).bind Line.zVal = some (.finite (11 / 20)) ∧
      (f.lines.tail[2]?).bind Line.zVal = some (.finite (21 / 40)) ∧
      (galaxyLoop sampleEnv (.finite (1 / 2)) (.finite (3 / 5)) (.finite (1 / 4)) ";"
          (.finite (1 / 10)) (.finite (-1 / 5))
          (raOf (sampleEnv.pix2ang .RING 3 0)) (decOf (sampleEnv.pix2ang .RING 3 0)) 2
          (genAfter sampleEnv sampleConfig 0)).1[1]? = f.lines.tail[1]? := by
  refine ⟨sample_validRun, ?_⟩
  obtain ⟨f, hf, hord, hrow, -⟩ :=
    rows_in_pixel_order sampleEnv sampleObject sampleConfig [2, 0, 1] sample_validRun
  have h0 := hrow 0 0 2 (.finite (1 / 10)) (.finite (-1 / 5)) rfl (by decide) (by decide!)
    (by decide!)
  have h1 := hrow 0 1 2 (.finite (1 / 10)) (.finite (-1 / 5)) rfl (by decide) (by decide!)
    (by decide!)
  have h2 := hrow 2 0 1 (.finite (3 / 10)) (.finite (2 / 5)) rfl (by decide) (by decide!)
    (by decide!)
  have e0 : (sampleEnv.dist_z sampleConfig.zMin sampleConfig.zMax
      (genAfter sampleEnv sampleConfig (rowsBefore [2, 0, 1] 0 + 0))).1
      = .finite (23 / 40) := by decide!
  have e1 : (sampleEnv.dist_z sampleConfig.zMin sampleConfig.zMax
      (genAfter sampleEnv sampleConfig (rowsBefore [2, 0, 1] 0 + 1))).1
      = .finite (11 / 20) := by decide!
  have e2 : (sampleEnv.dist_z sampleConfig.zMin sampleConfig.zMax
      (genAfter sampleEnv sampleConfig (rowsBefore [2, 0, 1] 2 + 0))).1
      = .finite (21 / 40) := by decide!
  refine ⟨f, hf, hord 0 2 2 (by decide) rfl, ?_, ?_, ?_, h1.2⟩
  · have := h0.1
    rw [show rowsBefore [2, 0, 1] 0 + 0 = 0 from rfl] at this
    rw [this]
    exact congrArg some e0
  · have := h1.1
    rw [show rowsBefore [2, 0, 1] 0 + 1 = 1 from rfl] at this
    rw [this]
    exact congrArg some e1
  · have := h2.1
    rw [show rowsBefore [2, 0, 1] 2 + 0 = 2 from rfl] at this
    rw [this]
    exact congrArg some e2

/-- C9 on the sample run, whose bounds are `1/2` and `3/5` and whose uniform draws lie
between them: every row has a redshift `z` with `1/2 ≤ z < 3/5`. -/
theorem redshift_is_uniform_draw_witness :
    ValidRun sampleEnv sampleObject sampleConfig [2, 0, 1] ∧
    ∃ f : ofstream, (generate sampleEnv sampleObject).1 = .ok f ∧
      (generate sampleEnv sampleObject).2.mZBounds = [.finite (1 / 2), .finite (3 / 5)] ∧
      (∀ r, r < f.lines.tail.length →
        ∃ ra dec e1Val e2Val,
          f.lines.tail[r]? = some (.row ";" ra dec
            (sampleEnv.dist_z (.finite (1 / 2)) (.finite (3 / 5))
              (genAfter sampleEnv sampleConfig r)).1 e1Val e2Val)) ∧
      (1 / 2 : ℚ) < 3 / 5 ∧
      ∀ r, r < f.lines.tail.length →
        ∃ ra dec e1Val e2Val z,
          f.lines.tail[r]? = some (.row ";" ra dec (.finite z) e1Val e2Val) ∧
          1 / 2 ≤ z ∧ z < 3 / 5 := by
  refine ⟨sample_validRun, ?_⟩
  obtain ⟨f, hf, hb, -, hrow, hfin⟩ :=
    redshift_is_uniform_draw sampleEnv sampleObject sampleConfig [2, 0, 1] sample_validRun
  obtain ⟨hab, hrange⟩ := hfin (1 / 2) (3 / 5) rfl rfl
  exact ⟨f, hf, hb, hrow, hab,
    hrange (fun g => sample_draws_in_range (1 / 2) (3 / 5) hab g)⟩

/-- C9 as stated fails.  The bounds string `0.5,inf` passes the check of `generate`
(`1/2 >= inf` is false) and every row carries the redshift `inf`, which is not less
than the upper bound; the bounds string `nan,0.5` passes it too and every row carries
NaN, which is not at least the lower bound. -/
theorem redshift_outside_bounds :
    (generate sampleEnv (sampleObjectWith (sampleTreeWithBounds "0.5,inf"))).2.mZBounds
      = [.finite (1 / 2), .posInf] ∧
    (generate sampleEnv (sampleObjectWith (sampleTreeWithBounds "0.5,inf"))).1.map
      (fun f => f.lines.tail.map Line.zVal) = .ok [some .posInf, some .posInf, some .posInf] ∧
    Double.lt .posInf .posInf = false ∧
    (generate sampleEnv (sampleObjectWith (sampleTreeWithBounds "nan,0.5"))).2.mZBounds
      = [.nan, .finite (1 / 2)] ∧
    (generate sampleEnv (sampleObjectWith (sampleTreeWithBounds "nan,0.5"))).1.map
      (fun f => f.lines.tail.map Line.zVal) = .ok [some .nan, some .nan, some .nan] ∧
    Double.ge .nan .nan = false := by
  decide!

/-- C10 on the sample run with `sigma_e` zero: the second row of pixel 0 carries the
shape values `1/10` and `-1/5` of the pixel. -/
theorem three_draws_per_galaxy_witness :
    ValidRun sampleEnv (sampleObjectWith noNoiseTree) noNoiseConfig [2, 0, 1] ∧
    ∃ f : ofstream, (generate sampleEnv (sampleObjectWith noNoiseTree)).1 = .ok f ∧
      generateFrom sampleEnv (generate sampleEnv (sampleObjectWith noNoiseTree)).2
        = .ok (f, genAfter sampleEnv noNoiseConfig f.lines.tail.length) ∧
      ∃ ra dec, f.lines.tail[1]?
        = some (.row ";" ra dec
            (sampleEnv.dist_z (.finite (1 / 2)) (.finite (3 / 5))
              (genAfter sampleEnv noNoiseConfig 1)).1
            (.finite (1 / 10)) (.finite (-1 / 5))) := by
  refine ⟨noNoise_validRun, ?_⟩
  obtain ⟨f, hf, hend, hrow⟩ :=
    three_draws_per_galaxy sampleEnv (sampleObjectWith noNoiseTree) noNoiseConfig [2, 0, 1]
      noNoise_validRun
  obtain ⟨ra, dec, e1Val, e2Val, hr, -, -, -, hzero⟩ :=
    hrow 0 1 2 (.finite (1 / 10)) (.finite (-1 / 5)) rfl (by decide) (by decide!) (by decide!)
  obtain ⟨h1, h2⟩ := hzero rfl sample_normalContract
  rw [h1, h2] at hr
  exact ⟨f, hf, hend, ra, dec, hr⟩

end Map2Cat
